import Mathlib

/-!
Verification of the pipeline-orchestration core of the document-processor
repository, as a shallow embedding in Lean 4.

Conventions of the embedding:
* Machine file contents are `List Nat` (the raw bytes); hashing is an
  arbitrary function of the bytes, passed as a parameter (SHA-256 of
  identical byte lists is definitionally equal).
* The relational store is explicit state (`List FileRecord`, plus a
  committed-state trace where commit points matter).
* Celery `.delay` enqueues are collected in an output list of task values.
* External collaborators (PyMuPDF page texts, mimetypes, the OCR and LLM
  providers, json parsing, a failing database) enter as function or flag
  parameters, so every claim-relevant branch of the orchestration logic is
  represented faithfully while the collaborator itself stays opaque.
* Python timestamps are seconds since the epoch as `Int`; `timedelta(days=7)`
  is `7 * 86400`.
-/

namespace DocProc

/-- Bytes of a file, as a list of byte values. -/
abbrev Bytes := List Nat

/-! ### Path helpers (os.path semantics used by the tasks) -/

/-- Does the character list `p` occur at the head of `s`? -/
def charsStarts : List Char → List Char → Bool
  | [], _ => true
  | _ :: _, [] => false
  | p :: ps, c :: cs => p == c && charsStarts ps cs

/-- `s.startswith p` on strings. -/
def strStarts (p s : String) : Bool := charsStarts p.data s.data

/-- `s.endswith p` on strings. -/
def strEnds (p s : String) : Bool := charsStarts p.data.reverse s.data.reverse

/-- `os.path.join a b` for one relative or absolute component `b`. -/
def joinPath (a b : String) : String :=
  if a = "" then b
  else if strStarts "/" b then b
  else if strEnds "/" a then a ++ b
  else a ++ "/" ++ b

/-- Characters of the last path component (`os.path.basename`). -/
def basenameChars (cs : List Char) : List Char :=
  (cs.reverse.takeWhile (fun c => !(c == '/'))).reverse

/-- `os.path.basename`. -/
def basename (p : String) : String := String.mk (basenameChars p.data)

/-- `os.path.splitext` on the characters of a full path: the extension starts
at the last dot of the last component, unless every character of the component
before that dot is itself a dot (so ".bashrc" has no extension). -/
def splitextChars (cs : List Char) : List Char × List Char :=
  let bn := basenameChars cs
  if bn.contains '.' then
    let afterLastDot := bn.reverse.takeWhile (fun c => !(c == '.'))
    let extLen := afterLastDot.length + 1
    let rootBn := bn.take (bn.length - extLen)
    if rootBn.any (fun c => !(c == '.')) then
      (cs.take (cs.length - extLen), cs.drop (cs.length - extLen))
    else (cs, [])
  else (cs, [])

/-- Extension part of `os.path.splitext`. -/
def splitextExtStr (p : String) : String := String.mk (splitextChars p.data).2

/-! ### Seen-Mail Cache (app/tasks/imap_tasks.py)

The cache file maps message ids to UTC timestamp strings.  `strptime` plus the
UTC adjustment is modelled by a parameter `parseTs : String → Int` giving the
parsed timestamp in epoch seconds (the claims range over well-formed stored
entries, which are exactly the `strftime` outputs the poller writes). -/

/-- `cleanup_old_entries`: keep exactly the entries parsed strictly newer than
`now - 7 days`. -/
def cleanup_old_entries (parseTs : String → Int) (now : Int)
    (processed_emails : List (String × String)) : List (String × String) :=
  processed_emails.filter (fun e => decide (now - 7 * 86400 < parseTs e.2))

/-- `load_processed_emails`: `cacheFile = none` models a missing file,
`some none` a file whose JSON fails to decode, `some (some entries)` a
readable cache. -/
def load_processed_emails (parseTs : String → Int) (now : Int)
    (cacheFile : Option (Option (List (String × String)))) : List (String × String) :=
  match cacheFile with
  | some (some entries) => cleanup_old_entries parseTs now entries
  | some none => []
  | none => []

/-- `save_processed_emails` writes the given mapping back verbatim; the value
returned is the file content written. -/
def save_processed_emails (processed_emails : List (String × String)) :
    List (String × String) :=
  processed_emails

/-! ### Fan-out aggregator (app/tasks/send_to_all.py) -/

/-- Result dictionary of `send_to_all_destinations`. -/
structure SendAllResult where
  status : String
  file_path : String
  dropbox_task : Nat
  nextcloud_task : Nat
  paperless_task : Nat
deriving DecidableEq

/-- One enqueued destination-upload stage, tagged with the Celery task id
handed back by `.delay`. -/
inductive UploadTask where
  | dropbox (path : String) (tid : Nat)
  | nextcloud (path : String) (tid : Nat)
  | paperless (path : String) (tid : Nat)
deriving DecidableEq

/-- `send_to_all_destinations`: fires three `.delay` calls (task ids are drawn
from the counter `nextTid`) and returns at once with the three successor task
identifiers.  The function takes no upload outcome as input: enqueueing is
fire-and-forget, so no destination's success or failure can influence the
others' enqueueing. -/
def send_to_all_destinations (nextTid : Nat) (file_path : String) :
    SendAllResult × List UploadTask :=
  let dropboxTid := nextTid
  let nextcloudTid := nextTid + 1
  let paperlessTid := nextTid + 2
  ({ status := "All upload tasks enqueued"
     file_path := file_path
     dropbox_task := dropboxTid
     nextcloud_task := nextcloudTid
     paperless_task := paperlessTid },
   [UploadTask.dropbox file_path dropboxTid,
    UploadTask.nextcloud file_path nextcloudTid,
    UploadTask.paperless file_path paperlessTid])

/-! ### Document Records and the audit log (app/utils.py)

`app/models.py` itself is not part of the sources handed over; the two record
shapes below are the fields every task in `src` reads or writes, with the
Document Record invariant fields named as in the spec's data model
(modelled from the spec where the column declarations are missing). -/

/-- FileRecord row.  Modelled from the spec: `app/models.py` is absent from
`src/`; the fields are those used by `process_document`,
`extract_metadata_with_gpt`, `process_with_textract` and `log_task_progress`
(`id`, `filehash`, `original_filename`, `local_filename`, `file_size`,
`mime_type`). -/
structure FileRecord where
  id : Nat
  filehash : String
  original_filename : String
  local_filename : String
  file_size : Nat
  mime_type : String
deriving DecidableEq

/-- ProcessingLog row.  Modelled from the spec: `app/models.py` is absent from
`src/`; the fields are exactly those `log_task_progress` writes. -/
structure ProcessingLog where
  task_id : String
  step_name : String
  status : String
  message : Option String
  file_id : Option Nat
deriving DecidableEq

/-- The relational store as `log_task_progress` sees it. -/
structure LogDB where
  fileRecords : List FileRecord
  logs : List ProcessingLog
  nextLogId : Nat
deriving DecidableEq

/-- Python truthiness of the optional `file_id` argument
(`not file_id` is true for `None` and for `0`). -/
def optNatFalsy : Option Nat → Bool
  | none => true
  | some n => n == 0

/-- Body of `log_task_progress` inside the `try`: look up a `file_id` from
`file_path` when needed, then append the log row and commit, returning the new
row id.  `dbFail = true` models any database exception inside the session
(connection, query or commit failure); the session context manager rolls the
uncommitted work back, so the store is unchanged in that case. -/
def log_task_progress_body (dbFail : Bool) (db : LogDB)
    (task_id step_name status : String) (message : Option String)
    (file_id : Option Nat) (file_path : Option String) :
    Except String (Nat × LogDB) :=
  if dbFail then Except.error "database error"
  else
    let fid :=
      match file_path with
      | some fp =>
        if optNatFalsy file_id && !(fp == "") then
          match db.fileRecords.find? (fun r => r.local_filename == fp) with
          | some r => some r.id
          | none => file_id
        else file_id
      | none => file_id
    let entry : ProcessingLog :=
      ⟨task_id, step_name, status, message, fid⟩
    Except.ok (db.nextLogId,
      { db with logs := db.logs ++ [entry], nextLogId := db.nextLogId + 1 })

/-- `log_task_progress`: the whole body runs under `try`/`except Exception`;
a raised exception is logged and turned into the return value `None`, so the
caller's control flow is never altered by a failed audit write. -/
def log_task_progress (dbFail : Bool) (db : LogDB)
    (task_id step_name status : String) (message : Option String)
    (file_id : Option Nat) (file_path : Option String) : Option Nat × LogDB :=
  match log_task_progress_body dbFail db task_id step_name status message
      file_id file_path with
  | Except.ok (i, db') => (some i, db')
  | Except.error _ => (none, db)

/-! ### Classification stage (app/tasks/extract_metadata_with_gpt.py)

`extract_json_from_text` is embedded including the regex
search for a fenced block: the pattern has a deterministic backtracking
behaviour (whitespace runs are maximal because the next required character is
never whitespace), so the leftmost match with a shortest brace span and an
optional `json` tag is an exact model of `re.search` with `re.DOTALL`. -/

/-- The backquote character (code 96). -/
def backquoteChar : Char := Char.ofNat 96

/-- Python's `\s` on ASCII text. -/
def pyIsSpace (c : Char) : Bool :=
  c == ' ' || c == '\t' || c == '\n' || c == '\r' || c == '\x0b' || c == '\x0c'

/-- Consume the literal `lit` from the head of `cs`. -/
def stripLit : List Char → List Char → Option (List Char)
  | [], cs => some cs
  | _ :: _, [] => none
  | p :: ps, c :: cs => if p == c then stripLit ps cs else none

/-- Does a closing fence (optional whitespace, then three backquotes) start
here? -/
def closesFence (cs : List Char) : Bool :=
  charsStarts [backquoteChar, backquoteChar, backquoteChar]
    (cs.dropWhile pyIsSpace)

/-- Scan for the first `}` that is followed by a closing fence (the non-greedy
`.*?` of the pattern); returns the consumed content including that brace. -/
def findCloseBrace : List Char → List Char → Option (List Char)
  | _, [] => none
  | acc, c :: cs =>
    if c == '}' && closesFence cs then some (acc.reverse ++ ['}'])
    else findCloseBrace (c :: acc) cs

/-- After the opening fence (and the optional `json` tag): skip whitespace,
require an opening brace, and find the non-greedy closing brace; the returned
characters are capture group 1. -/
def fencedTryBody (rest : List Char) : Option (List Char) :=
  match rest.dropWhile pyIsSpace with
  | '{' :: tail => (findCloseBrace [] tail).map (fun content => '{' :: content)
  | _ => none

/-- Match the fenced pattern at this exact position. -/
def fencedAt (cs : List Char) : Option (List Char) :=
  match stripLit [backquoteChar, backquoteChar, backquoteChar] cs with
  | none => none
  | some rest =>
    match stripLit ['j', 's', 'o', 'n'] rest with
    | some rest2 =>
      match fencedTryBody rest2 with
      | some g => some g
      | none => fencedTryBody rest
    | none => fencedTryBody rest

/-- Leftmost match of the fenced pattern (`re.search`). -/
def fencedSearch : List Char → Option (List Char)
  | [] => none
  | c :: cs =>
    match fencedAt (c :: cs) with
    | some g => some g
    | none => fencedSearch cs

/-- `extract_json_from_text`: first the fenced block, then the fallback span
from the first `{` to the last `}` (only when the last `}` is strictly after
the first `{`). -/
def extract_json_from_text (text : String) : Option String :=
  match fencedSearch text.data with
  | some g => some (String.mk g)
  | none =>
    let cs := text.data
    match cs.findIdx? (fun c => c == '{') with
    | none => none
    | some s =>
      match cs.reverse.findIdx? (fun c => c == '}') with
      | none => none
      | some rIdx =>
        let e := cs.length - 1 - rIdx
        if s < e then some (String.mk ((cs.drop s).take (e - s + 1)))
        else none

/-- Successor enqueued by the classification stage. -/
inductive ClassifyTask (μ : Type) where
  | embedMetadata (filename : String) (text : String) (metadata : μ)
deriving DecidableEq

/-- `extract_metadata_with_gpt`, from the point where the model response
`content` has been received.  `parseJson` models `json.loads` (its failure
raises, which the stage's `except` turns into the empty result `{}` — here
`none`); `dbOk = false` models a database error in the trailing record lookup,
which is likewise caught after the successor has already been enqueued.  The
first component is the returned result (`none` is the empty dict `{}`), the
second the list of enqueued successor stages. -/
def extract_metadata_with_gpt {μ : Type} (parseJson : String → Option μ)
    (dbOk : Bool) (s3_filename cleaned_text content : String) :
    Option (String × μ) × List (ClassifyTask μ) :=
  match extract_json_from_text content with
  | none => (none, [])
  | some json_text =>
    match parseJson json_text with
    | none => (none, [])
    | some metadata =>
      let tasks := [ClassifyTask.embedMetadata s3_filename cleaned_text metadata]
      if dbOk then (some (s3_filename, metadata), tasks) else (none, tasks)

/-! ### Ingest stage (app/tasks/process_document.py)

The filesystem is a path-to-bytes association list; `shutil.copy` writes the
destination path.  `hash_file` (SHA-256 of the raw bytes) is a parameter
function of the bytes, `mimetypes.guess_type` a parameter of the path, and
PyMuPDF's per-page text extraction a parameter of the bytes.  The two
`db.commit()` calls of the creation path are recorded as a trace of committed
record states, so observability of intermediate commits can be stated. -/

/-- Path-to-content filesystem. -/
abbrev ContentFS := List (String × Bytes)

/-- `os.path.exists` + read: the content at a path, if any. -/
def fsLookup (fs : ContentFS) (p : String) : Option Bytes :=
  (fs.find? (fun e => e.1 == p)).map (fun e => e.2)

/-- Write `b` at path `p` (overwriting any previous content). -/
def fsWrite (fs : ContentFS) (p : String) (b : Bytes) : ContentFS :=
  (p, b) :: fs.filter (fun e => !(e.1 == p))

/-- Successor stages `process_document` can enqueue. -/
inductive PDTask where
  | extractMetadata (filename : String) (text : String)
  | textract (filename : String)
deriving DecidableEq

/-- Return value of `process_document`. -/
inductive PDResult where
  | errorFileNotFound
  | duplicateFile (file_id : Nat)
  | textExtractedLocally (file : String) (file_id : Nat)
  | queuedForOCR (file : String) (file_id : Nat)
deriving DecidableEq

/-- Store plus filesystem state seen by the ingest stage; `nextId` is the
autoincrement id the insert will receive. -/
structure PDState where
  records : List FileRecord
  nextId : Nat
  fs : ContentFS
deriving DecidableEq

/-- Output of one `process_document` invocation: its return value, the final
state, the enqueued successors, and the trace of record lists committed to the
store during the invocation (one entry per `db.commit()`). -/
structure PDOut where
  result : PDResult
  state : PDState
  tasks : List PDTask
  commits : List (List FileRecord)
deriving DecidableEq

/-- External collaborators of the ingest stage. -/
structure PDEnv where
  sha256 : Bytes → String
  guessMime : String → Option String
  pageTexts : Bytes → List String

/-- `any(page.get_text() for page in pdf_doc)`: some page text is truthy. -/
def hasEmbeddedText (env : PDEnv) (b : Bytes) : Bool :=
  (env.pageTexts b).any (fun t => !(t == ""))

/-- The local extraction loop: concatenate every page text plus a newline. -/
def extractTextLocally (env : PDEnv) (b : Bytes) : String :=
  String.join ((env.pageTexts b).map (fun t => t ++ "\n"))

/-- `process_document`: hash the input, stop with `duplicate_file` when the
hash is already recorded, otherwise insert the record (first commit, with
`local_filename` still empty), copy the file to `<workdir>/tmp/<uuid><ext>`,
assign `local_filename` (second commit), and enqueue exactly one successor:
classification on the locally extracted text when some page has embedded
text, OCR otherwise. -/
def process_document (env : PDEnv) (uuid : String) (workdir : String)
    (st : PDState) (original_local_file : String) : PDOut :=
  match fsLookup st.fs original_local_file with
  | none => ⟨PDResult.errorFileNotFound, st, [], []⟩
  | some bytes =>
    let filehash := env.sha256 bytes
    let original_filename := basename original_local_file
    let file_size := bytes.length
    let mime_type :=
      match env.guessMime original_local_file with
      | some m => if m == "" then "application/octet-stream" else m
      | none => "application/octet-stream"
    match st.records.find? (fun r => r.filehash == filehash) with
    | some existing_record => ⟨PDResult.duplicateFile existing_record.id, st, [], []⟩
    | none =>
      let newId := st.nextId
      let newRecord : FileRecord :=
        ⟨newId, filehash, original_filename, "", file_size, mime_type⟩
      let records1 := st.records ++ [newRecord]
      let file_ext := splitextExtStr original_local_file
      let new_filename := uuid ++ file_ext
      let tmp_dir := joinPath workdir "tmp"
      let new_local_path := joinPath tmp_dir new_filename
      let fs1 := fsWrite st.fs new_local_path bytes
      let records2 := records1.map (fun r =>
        if r.id == newId then { r with local_filename := new_local_path } else r)
      let st' : PDState := ⟨records2, newId + 1, fs1⟩
      let pdfBytes := (fsLookup fs1 new_local_path).getD []
      if hasEmbeddedText env pdfBytes then
        ⟨PDResult.textExtractedLocally new_local_path newId, st',
         [PDTask.extractMetadata new_filename (extractTextLocally env pdfBytes)],
         [records1, records2]⟩
      else
        ⟨PDResult.queuedForOCR new_local_path newId, st',
         [PDTask.textract new_filename], [records1, records2]⟩

/-- The spec's Document Record uniqueness invariant: at most one record per
content hash. -/
def atMostOnePerHash (l : List FileRecord) : Prop :=
  l.Pairwise (fun a b => a.filehash ≠ b.filehash)

/-- The record inserted by the first commit of the creation path (its
`local_filename` is still empty at that point). -/
def pdNewRecord (env : PDEnv) (st : PDState) (p : String) (b : Bytes) :
    FileRecord :=
  ⟨st.nextId, env.sha256 b, basename p, "", b.length,
   match env.guessMime p with
   | some m => if m == "" then "application/octet-stream" else m
   | none => "application/octet-stream"⟩

/-- Working-copy path `<workdir>/tmp/<uuid><ext>` of the creation path. -/
def pdNewLocalPath (u wd p : String) : String :=
  joinPath (joinPath wd "tmp") (u ++ splitextExtStr p)

/-- Record list committed by the first `db.commit()` of the creation path. -/
def pdRecords1 (env : PDEnv) (st : PDState) (p : String) (b : Bytes) :
    List FileRecord :=
  st.records ++ [pdNewRecord env st p b]

/-- Record list committed by the second `db.commit()` of the creation path:
the new record's `local_filename` is assigned to the working-copy path. -/
def pdRecords2 (env : PDEnv) (u wd : String) (st : PDState) (p : String)
    (b : Bytes) : List FileRecord :=
  (pdRecords1 env st p b).map (fun r =>
    if r.id == st.nextId then { r with local_filename := pdNewLocalPath u wd p }
    else r)

/-! ### Metadata-embedding stage (app/tasks/embed_metadata_into_pdf.py)

Only path existence matters to the claims about this stage, so the filesystem
is the list of existing paths.  `fitzOk = false` models an exception raised
inside the stage's `try` block (the PyMuPDF metadata embedding, the earliest
and representative failure point); the stage's `except` clause turns it into
an error return. -/

/-- One MIME part of a mail message, as the poller reads it. -/
structure EmailPart where
  maintype : String
  content_type : String
  filename : Option String
  payload : Bytes
deriving DecidableEq

/-- Task handed one attachment by the poller. -/
inductive MailTask where
  | uploadToS3 (path : String)
  | processDocumentTask (path : String)
deriving DecidableEq

/-- `fetch_attachments_and_enqueue`: skip multipart containers; for each part
with a truthy filename and content type `application/pdf`, write the payload
to `<workdir>/<filename>` and enqueue `upload_to_s3.delay(file_path)`.
Returns the has-attachment flag, the writes performed, and the enqueued
tasks. -/
def fetch_attachments_and_enqueue (workdir : String)
    (parts : List EmailPart) : Bool × List (String × Bytes) × List MailTask :=
  parts.foldl (fun acc part =>
    if part.maintype == "multipart" then acc
    else
      match part.filename with
      | some fn =>
        if fn ≠ "" ∧ part.content_type = "application/pdf" then
          let file_path := joinPath workdir fn
          (true, acc.2.1 ++ [(file_path, part.payload)],
           acc.2.2 ++ [MailTask.uploadToS3 file_path])
        else acc
      | none => acc) (false, [], [])

/-! ### Poller lock discipline (app/tasks/imap_tasks.py)

Two concurrently scheduled `pull_all_inboxes` ticks over the shared Redis
lock, as a small-step transition system.  `acquire_lock` is one atomic
`SETNX` followed by `EXPIRE LOCK_KEY 300`; a failed acquire makes the tick
return at once without any mailbox I/O; a successful one enters the `try`
body — whose mailbox operations are an arbitrary planned list — and the
`finally` clause deletes the lock key whether the body finished or raised.
The 300-second expiry is modelled as a nondeterministic environment step
that can delete the held lock key at any moment (the passage of the TTL is
not under the program's control), guarded by the `expiry` flag of the step
relation: `PollStep true` is the program's full semantics, while
`PollStep false` restricts attention to runs in which the TTL never elapses
during a cycle. -/

/-- Control state of one tick. -/
inductive TickPhase where
  | start
  | running (rest : List Nat)
  | releasing (exc : Bool)
  | skipped
  | finished (exc : Bool)
deriving DecidableEq

/-- One tick: its control state and the mailbox I/O it has performed. -/
structure Tick where
  phase : TickPhase
  emitted : List Nat
deriving DecidableEq

/-- The whole system: the Redis lock key and the two ticks. -/
structure PollerSys where
  lock : Bool
  tick1 : Tick
  tick2 : Tick
deriving DecidableEq

/-- Is the tick past a successful lock acquisition and before its `finally`
release (inside the mailbox-processing body or its exception handler)? -/
def inMailboxBody : TickPhase → Bool
  | TickPhase.running _ => true
  | TickPhase.releasing _ => true
  | _ => false

/-- Atomic steps of one tick against the shared lock (`ops` is the tick's
planned list of mailbox operations). -/
inductive TickStep (ops : List Nat) : Tick → Bool → Tick → Bool → Prop where
  | acquireOk (e : List Nat) :
      TickStep ops ⟨TickPhase.start, e⟩ false ⟨TickPhase.running ops, e⟩ true
  | acquireFail (e : List Nat) :
      TickStep ops ⟨TickPhase.start, e⟩ true ⟨TickPhase.skipped, e⟩ true
  | ioStep (op : Nat) (rest e : List Nat) (b : Bool) :
      TickStep ops ⟨TickPhase.running (op :: rest), e⟩ b
        ⟨TickPhase.running rest, e ++ [op]⟩ b
  | raiseExc (rest e : List Nat) (b : Bool) :
      TickStep ops ⟨TickPhase.running rest, e⟩ b
        ⟨TickPhase.releasing true, e⟩ b
  | finishBody (e : List Nat) (b : Bool) :
      TickStep ops ⟨TickPhase.running [], e⟩ b
        ⟨TickPhase.releasing false, e⟩ b
  | releaseLock (x : Bool) (e : List Nat) (b : Bool) :
      TickStep ops ⟨TickPhase.releasing x, e⟩ b
        ⟨TickPhase.finished x, e⟩ false

/-- Interleaving of the two ticks, plus — when `expiry` is `true` — the
Redis TTL elapsing: the key set with `EXPIRE LOCK_KEY 300` vanishes while a
holder may still be inside its body. -/
inductive PollStep (expiry : Bool) (ops1 ops2 : List Nat) :
    PollerSys → PollerSys → Prop where
  | stepLeft {t1 t1' : Tick} {b b' : Bool} (t2 : Tick) :
      TickStep ops1 t1 b t1' b' →
      PollStep expiry ops1 ops2 ⟨b, t1, t2⟩ ⟨b', t1', t2⟩
  | stepRight {t2 t2' : Tick} {b b' : Bool} (t1 : Tick) :
      TickStep ops2 t2 b t2' b' →
      PollStep expiry ops1 ops2 ⟨b, t1, t2⟩ ⟨b', t1, t2'⟩
  | expireLock (t1 t2 : Tick) (hx : expiry = true) :
      PollStep expiry ops1 ops2 ⟨true, t1, t2⟩ ⟨false, t1, t2⟩

/-- Both ticks scheduled, lock free, nothing emitted. -/
def pollInit : PollerSys :=
  ⟨false, ⟨TickPhase.start, []⟩, ⟨TickPhase.start, []⟩⟩

/-- Configurations reachable from the initial one by any interleaving
(`expiry = true`: the program's full semantics, where the TTL may elapse;
`expiry = false`: only runs whose cycles finish within the TTL). -/
def PollReachable (expiry : Bool) (ops1 ops2 : List Nat) (c : PollerSys) :
    Prop :=
  Relation.ReflTransGen (PollStep expiry ops1 ops2) pollInit c

/-- Per-tick bookkeeping: before acquiring, and after a failed acquire, a
tick has performed no mailbox I/O. -/
def tickOk (t : Tick) : Prop :=
  (t.phase = TickPhase.start → t.emitted = []) ∧
  (t.phase = TickPhase.skipped → t.emitted = [])

/-- Inductive invariant of the expiry-free runs: the lock is held exactly
while some tick is inside its body, never both ticks at once, and skipped
ticks did no I/O. -/
def pollerInv (c : PollerSys) : Prop :=
  c.lock = (inMailboxBody c.tick1.phase || inMailboxBody c.tick2.phase) ∧
  ¬(inMailboxBody c.tick1.phase = true ∧ inMailboxBody c.tick2.phase = true) ∧
  tickOk c.tick1 ∧ tickOk c.tick2

/-- Inductive invariant of the full semantics (expiry included): a held lock
key means some tick is inside its body (the converse can fail after an
expiry), and skipped ticks did no I/O. -/
def pollerInvWeak (c : PollerSys) : Prop :=
  (c.lock = true →
    (inMailboxBody c.tick1.phase || inMailboxBody c.tick2.phase) = true) ∧
  tickOk c.tick1 ∧ tickOk c.tick2

end DocProc

namespace DocProc

/-- C6: for every stored seen-mail cache entry, a load (followed by any save,
which writes the loaded mapping verbatim) retains exactly the entries whose
parsed timestamp is strictly newer than 7 days before the current UTC time,
with the timestamp string unchanged; every entry at or older than that bound
is absent. -/
theorem load_processed_emails_retention (parseTs : String → Int) (now : Int)
    (entries : List (String × String)) (k v : String) :
    (k, v) ∈ save_processed_emails
        (load_processed_emails parseTs now (some (some entries))) ↔
      ((k, v) ∈ entries ∧ now - 7 * 86400 < parseTs v) := by
  simp [save_processed_emails, load_processed_emails, cleanup_old_entries,
    List.mem_filter]

/-- C4: every invocation of `send_to_all_destinations` enqueues exactly three
upload stages, one per destination, and returns immediately with the three
successor task identifiers; the enqueue list is a function of the path and id
counter alone, never of any upload's outcome, so no upload's success or
failure prevents or rolls back another's enqueueing. -/
theorem send_to_all_destinations_fanout (nextTid : Nat) (file_path : String) :
    (send_to_all_destinations nextTid file_path).2 =
      [UploadTask.dropbox file_path nextTid,
       UploadTask.nextcloud file_path (nextTid + 1),
       UploadTask.paperless file_path (nextTid + 2)] ∧
    (send_to_all_destinations nextTid file_path).2.length = 3 ∧
    (send_to_all_destinations nextTid file_path).1 =
      { status := "All upload tasks enqueued"
        file_path := file_path
        dropbox_task := nextTid
        nextcloud_task := nextTid + 1
        paperless_task := nextTid + 2 } := by
  refine ⟨rfl, rfl, rfl⟩

/-- C10: `log_task_progress` never raises: whenever the audit-write body fails
with any database exception, the exception is caught internally and the
function returns `None` with the store unchanged, so a failed audit-log write
cannot abort, retry, or otherwise alter the control flow of the calling
stage. -/
theorem log_task_progress_catches_all (dbFail : Bool) (db : LogDB)
    (task_id step_name status : String) (message : Option String)
    (file_id : Option Nat) (file_path : Option String) (e : String)
    (h : log_task_progress_body dbFail db task_id step_name status message
        file_id file_path = Except.error e) :
    log_task_progress dbFail db task_id step_name status message
      file_id file_path = (none, db) := by
  simp [log_task_progress, h]

/-- Witness for C10: a concrete failing database write returns `None` and
leaves the store untouched. -/
theorem log_task_progress_catches_all_witness :
    log_task_progress_body true ⟨[], [], 0⟩ "tid" "step" "failure" none none
        none = Except.error "database error" ∧
    log_task_progress true ⟨[], [], 0⟩ "tid" "step" "failure" none none none =
      (none, ⟨[], [], 0⟩) :=
  ⟨rfl,
   log_task_progress_catches_all true ⟨[], [], 0⟩ "tid" "step" "failure" none
     none none "database error" rfl⟩

/-- C5: whenever the model response contains no parseable structured block
(`extract_json_from_text` returns nothing: no fenced block and no
first-brace-to-last-brace span), the classification stage returns the empty
result without raising and enqueues no successor stage at all. -/
theorem extract_metadata_with_gpt_soft_fail {μ : Type}
    (parseJson : String → Option μ) (dbOk : Bool)
    (s3_filename cleaned_text content : String)
    (h : extract_json_from_text content = none) :
    extract_metadata_with_gpt parseJson dbOk s3_filename cleaned_text content =
      (none, []) := by
  simp [extract_metadata_with_gpt, h]

/-- Witness for C5: a concrete response with no structured block yields the
empty result and an empty successor list. -/
theorem extract_metadata_with_gpt_soft_fail_witness :
    extract_json_from_text "no structured data here" = none ∧
    extract_metadata_with_gpt (μ := Unit) (fun _ => none) true "f.pdf" "text"
        "no structured data here" = (none, []) :=
  ⟨by decide,
   extract_metadata_with_gpt_soft_fail (μ := Unit) (fun _ => none) true "f.pdf"
     "text" "no structured data here" (by decide)⟩

/-- Reading back the path just written returns the bytes just written. -/
theorem fsLookup_fsWrite_self (fs : ContentFS) (p : String) (b : Bytes) :
    fsLookup (fsWrite fs p b) p = some b := by
  simp [fsLookup, fsWrite]

/-- `find?` over a mapped append whose prefix images all fail the predicate
returns the image of the appended element when that image satisfies it. -/
theorem find?_map_append_single (l : List FileRecord) (q : FileRecord → Bool)
    (a : FileRecord) (f : FileRecord → FileRecord)
    (hl : ∀ x ∈ l, q (f x) = false) (ha : q (f a) = true) :
    ((l ++ [a]).map f).find? q = some (f a) := by
  induction l with
  | nil => simp [List.find?, ha]
  | cons x xs ih =>
    have hx := hl x (by simp)
    simpa [List.find?, hx] using ih (fun y hy => hl y (by simp [hy]))

/-- The working-copy assignment of the second commit never changes a record's
content hash. -/
theorem update_local_filename_filehash (r : FileRecord) (n : Nat) (np : String) :
    (if r.id == n then { r with local_filename := np } else r).filehash =
      r.filehash := by
  split <;> rfl

/-- Characterization of the creation path of `process_document`: when the
input file exists and its hash is not yet recorded, the invocation inserts the
new record in two commits, copies the bytes to the working path, and enqueues
exactly one successor selected by the embedded-text check. -/
theorem process_document_create_eq (env : PDEnv) (u wd : String)
    (st : PDState) (p : String) (b : Bytes)
    (h1 : fsLookup st.fs p = some b)
    (hfresh : st.records.find? (fun r => r.filehash == env.sha256 b) = none) :
    process_document env u wd st p =
      ⟨(if hasEmbeddedText env b then
          PDResult.textExtractedLocally (pdNewLocalPath u wd p) st.nextId
        else PDResult.queuedForOCR (pdNewLocalPath u wd p) st.nextId),
       ⟨pdRecords2 env u wd st p b, st.nextId + 1,
        fsWrite st.fs (pdNewLocalPath u wd p) b⟩,
       (if hasEmbeddedText env b then
          [PDTask.extractMetadata (u ++ splitextExtStr p)
            (extractTextLocally env b)]
        else [PDTask.textract (u ++ splitextExtStr p)]),
       [pdRecords1 env st p b, pdRecords2 env u wd st p b]⟩ := by
  simp only [process_document, h1, hfresh, fsLookup_fsWrite_self,
    Option.getD_some, pdRecords2, pdRecords1, pdNewRecord, pdNewLocalPath]
  split <;> rfl

/-- C1: for two invocations of `process_document` on files with identical raw
bytes (hence equal content hashes), where the first created a FileRecord (the
hash was fresh): the second returns exactly `duplicate_file` carrying the
first invocation's record id, leaves the store and filesystem untouched,
commits nothing, and enqueues no successor — regardless of the two files'
names or paths; the first invocation added exactly one record. -/
theorem process_document_dedup (env : PDEnv) (u1 u2 wd p1 p2 : String)
    (b : Bytes) (st : PDState)
    (h1 : fsLookup st.fs p1 = some b)
    (hfresh : st.records.find? (fun r => r.filehash == env.sha256 b) = none)
    (h2 : fsLookup (process_document env u1 wd st p1).state.fs p2 = some b) :
    process_document env u2 wd (process_document env u1 wd st p1).state p2 =
      ⟨PDResult.duplicateFile st.nextId,
       (process_document env u1 wd st p1).state, [], []⟩ ∧
    (process_document env u1 wd st p1).state.records.length =
      st.records.length + 1 := by
  have hcre := process_document_create_eq env u1 wd st p1 b h1 hfresh
  have hrecords : (process_document env u1 wd st p1).state.records =
      pdRecords2 env u1 wd st p1 b := by rw [hcre]
  have hfound : ((process_document env u1 wd st p1).state.records).find?
      (fun r => r.filehash == env.sha256 b) =
      some { pdNewRecord env st p1 b with
               local_filename := pdNewLocalPath u1 wd p1 } := by
    rw [hrecords]
    unfold pdRecords2 pdRecords1
    rw [find?_map_append_single]
    · have hid : (pdNewRecord env st p1 b).id == st.nextId := by
        simp [pdNewRecord]
      simp [hid]
    · intro x hx
      rw [update_local_filename_filehash]
      have := List.find?_eq_none.mp hfresh x hx
      simpa using this
    · rw [update_local_filename_filehash]
      simp [pdNewRecord]
  constructor
  · set st1 := (process_document env u1 wd st p1).state with hst1
    simp only [process_document, h2, hfound]
    simp [pdNewRecord]
  · rw [hrecords]
    simp [pdRecords2, pdRecords1]

/-- Witness for C1: a concrete byte-identical pair of differently named files;
the second run returns the duplicate result with the first record's id,
changes nothing and enqueues nothing. -/
theorem process_document_dedup_witness :
    (fsLookup [("/in/a.pdf", [1, 2]), ("/other/b.pdf", [1, 2])] "/in/a.pdf" =
      some [1, 2]) ∧
    (([] : List FileRecord).find?
      (fun r => r.filehash == (fun (_ : Bytes) => "h") [1, 2]) = none) ∧
    (fsLookup (process_document ⟨fun _ => "h", fun _ => none, fun _ => ["hi"]⟩
        "u1" "/w" ⟨[], 0, [("/in/a.pdf", [1, 2]), ("/other/b.pdf", [1, 2])]⟩
        "/in/a.pdf").state.fs "/other/b.pdf" = some [1, 2]) ∧
    (process_document ⟨fun _ => "h", fun _ => none, fun _ => ["hi"]⟩ "u2" "/w"
        (process_document ⟨fun _ => "h", fun _ => none, fun _ => ["hi"]⟩ "u1"
          "/w" ⟨[], 0, [("/in/a.pdf", [1, 2]), ("/other/b.pdf", [1, 2])]⟩
          "/in/a.pdf").state "/other/b.pdf" =
      ⟨PDResult.duplicateFile 0,
       (process_document ⟨fun _ => "h", fun _ => none, fun _ => ["hi"]⟩ "u1"
          "/w" ⟨[], 0, [("/in/a.pdf", [1, 2]), ("/other/b.pdf", [1, 2])]⟩
          "/in/a.pdf").state, [], []⟩ ∧
     (process_document ⟨fun _ => "h", fun _ => none, fun _ => ["hi"]⟩ "u1" "/w"
        ⟨[], 0, [("/in/a.pdf", [1, 2]), ("/other/b.pdf", [1, 2])]⟩
        "/in/a.pdf").state.records.length = 0 + 1) :=
  ⟨by decide, by decide, by decide,
   process_document_dedup ⟨fun _ => "h", fun _ => none, fun _ => ["hi"]⟩ "u1"
     "u2" "/w" "/in/a.pdf" "/other/b.pdf" [1, 2]
     ⟨[], 0, [("/in/a.pdf", [1, 2]), ("/other/b.pdf", [1, 2])]⟩ (by decide)
     (by decide) (by decide)⟩

/-- C2: an invocation of `process_document` on an existing file with a fresh
hash enqueues exactly one successor task — classification
(`extract_metadata_with_gpt`) carrying the locally extracted text if and only
if at least one page of the PDF has embedded text, and OCR
(`process_with_textract`) otherwise. -/
theorem process_document_single_successor (env : PDEnv) (u wd : String)
    (st : PDState) (p : String) (b : Bytes)
    (h1 : fsLookup st.fs p = some b)
    (hfresh : st.records.find? (fun r => r.filehash == env.sha256 b) = none) :
    (process_document env u wd st p).tasks.length = 1 ∧
    (hasEmbeddedText env b = true →
      (process_document env u wd st p).tasks =
        [PDTask.extractMetadata (u ++ splitextExtStr p)
          (extractTextLocally env b)]) ∧
    (hasEmbeddedText env b = false →
      (process_document env u wd st p).tasks =
        [PDTask.textract (u ++ splitextExtStr p)]) := by
  rw [process_document_create_eq env u wd st p b h1 hfresh]
  rcases h : hasEmbeddedText env b <;> simp [h]

/-- Witness for C2: a concrete PDF with embedded text is routed to the
classification stage with the locally extracted text as the only successor. -/
theorem process_document_single_successor_witness :
    (fsLookup [("/in/a.pdf", [1, 2])] "/in/a.pdf" = some [1, 2]) ∧
    (([] : List FileRecord).find?
      (fun r => r.filehash == (fun (_ : Bytes) => "h") [1, 2]) = none) ∧
    ((process_document ⟨fun _ => "h", fun _ => none, fun _ => ["hi"]⟩ "u" "/w"
        ⟨[], 0, [("/in/a.pdf", [1, 2])]⟩ "/in/a.pdf").tasks.length = 1 ∧
     (hasEmbeddedText ⟨fun _ => "h", fun _ => none, fun _ => ["hi"]⟩ [1, 2] =
        true →
      (process_document ⟨fun _ => "h", fun _ => none, fun _ => ["hi"]⟩ "u" "/w"
          ⟨[], 0, [("/in/a.pdf", [1, 2])]⟩ "/in/a.pdf").tasks =
        [PDTask.extractMetadata ("u" ++ splitextExtStr "/in/a.pdf")
          (extractTextLocally ⟨fun _ => "h", fun _ => none, fun _ => ["hi"]⟩
            [1, 2])]) ∧
     (hasEmbeddedText ⟨fun _ => "h", fun _ => none, fun _ => ["hi"]⟩ [1, 2] =
        false →
      (process_document ⟨fun _ => "h", fun _ => none, fun _ => ["hi"]⟩ "u" "/w"
          ⟨[], 0, [("/in/a.pdf", [1, 2])]⟩ "/in/a.pdf").tasks =
        [PDTask.textract ("u" ++ splitextExtStr "/in/a.pdf")])) :=
  ⟨by decide, by decide,
   process_document_single_successor
     ⟨fun _ => "h", fun _ => none, fun _ => ["hi"]⟩ "u" "/w"
     ⟨[], 0, [("/in/a.pdf", [1, 2])]⟩ "/in/a.pdf" [1, 2] (by decide)
     (by decide)⟩

/-- Counterexample for C7: on a concrete fresh ingest, the first
`db.commit()` makes a record with an unassigned working-copy pointer
(`local_filename = ""`) visible to every other session, and only the second
commit assigns the pointer — so record creation and first working-copy
placement are not atomic from another stage's perspective. -/
theorem process_document_half_initialized_commit :
    (process_document ⟨fun _ => "h", fun _ => none, fun _ => [""]⟩ "u" "/w"
        ⟨[], 0, [("/in/a.pdf", [7])]⟩ "/in/a.pdf").commits.head? =
      some [⟨0, "h", "a.pdf", "", 1, "application/octet-stream"⟩] ∧
    (process_document ⟨fun _ => "h", fun _ => none, fun _ => [""]⟩ "u" "/w"
        ⟨[], 0, [("/in/a.pdf", [7])]⟩ "/in/a.pdf").state.records =
      [⟨0, "h", "a.pdf", "/w/tmp/u.pdf", 1, "application/octet-stream"⟩] := by
  decide

/-- C7 (amended): every `process_document` invocation preserves at-most-one
record per content hash, both in its final state and in every committed
intermediate state; however creation and first working-copy placement are not
atomic: whenever the invocation commits at all, its first committed state
contains the new record with `local_filename` still unassigned, and only the
last committed state (the final one) carries the assignment. -/
theorem process_document_hash_unique_two_commits (env : PDEnv)
    (u wd : String) (st : PDState) (p : String)
    (hinv : atMostOnePerHash st.records) :
    atMostOnePerHash (process_document env u wd st p).state.records ∧
    (∀ l ∈ (process_document env u wd st p).commits, atMostOnePerHash l) ∧
    (∀ l, (process_document env u wd st p).commits.head? = some l →
      ∃ r, l = st.records ++ [r] ∧ r.local_filename = "") ∧
    (∀ l, (process_document env u wd st p).commits.getLast? = some l →
      l = (process_document env u wd st p).state.records) := by
  rcases hfs : fsLookup st.fs p with _ | b
  · simp [process_document, hfs, hinv]
  · rcases hrec : st.records.find? (fun r => r.filehash == env.sha256 b)
      with _ | r
    · have hfreshNe : ∀ x ∈ st.records, x.filehash ≠ env.sha256 b := by
        intro x hx
        have := List.find?_eq_none.mp hrec x hx
        simpa using this
      have h1p : atMostOnePerHash (pdRecords1 env st p b) := by
        unfold atMostOnePerHash pdRecords1
        rw [List.pairwise_append]
        refine ⟨hinv, by simp, ?_⟩
        intro a ha c hc
        simp only [List.mem_singleton] at hc
        subst hc
        simpa [pdNewRecord] using hfreshNe a ha
      have h2p : atMostOnePerHash (pdRecords2 env u wd st p b) := by
        unfold atMostOnePerHash pdRecords2
        rw [List.pairwise_map]
        refine h1p.imp ?_
        intro a c h
        rw [update_local_filename_filehash, update_local_filename_filehash]
        exact h
      rw [process_document_create_eq env u wd st p b hfs hrec]
      refine ⟨h2p, ?_, ?_, ?_⟩
      · intro l hl
        simp only [List.mem_cons, List.mem_singleton, List.not_mem_nil,
          or_false] at hl
        rcases hl with rfl | rfl
        · exact h1p
        · exact h2p
      · intro l hl
        simp only [List.head?_cons, Option.some.injEq] at hl
        subst hl
        exact ⟨pdNewRecord env st p b, rfl, rfl⟩
      · intro l hl
        simp only [List.getLast?] at hl
        simpa using hl.symm
    · simp [process_document, hfs, hrec, hinv]

/-- Witness for C7 (amended): a concrete fresh ingest preserves hash
uniqueness in every committed state while the first committed state still has
the empty working-copy pointer. -/
theorem process_document_hash_unique_two_commits_witness :
    atMostOnePerHash ([] : List FileRecord) ∧
    (atMostOnePerHash (process_document
        ⟨fun _ => "h", fun _ => none, fun _ => [""]⟩ "u" "/w"
        ⟨[], 0, [("/in/a.pdf", [7])]⟩ "/in/a.pdf").state.records ∧
     (∀ l ∈ (process_document ⟨fun _ => "h", fun _ => none, fun _ => [""]⟩ "u"
          "/w" ⟨[], 0, [("/in/a.pdf", [7])]⟩ "/in/a.pdf").commits,
        atMostOnePerHash l) ∧
     (∀ l, (process_document ⟨fun _ => "h", fun _ => none, fun _ => [""]⟩ "u"
          "/w" ⟨[], 0, [("/in/a.pdf", [7])]⟩ "/in/a.pdf").commits.head? =
          some l → ∃ r, l = [] ++ [r] ∧ r.local_filename = "") ∧
     (∀ l, (process_document ⟨fun _ => "h", fun _ => none, fun _ => [""]⟩ "u"
          "/w" ⟨[], 0, [("/in/a.pdf", [7])]⟩ "/in/a.pdf").commits.getLast? =
          some l →
        l = (process_document ⟨fun _ => "h", fun _ => none, fun _ => [""]⟩ "u"
          "/w" ⟨[], 0, [("/in/a.pdf", [7])]⟩ "/in/a.pdf").state.records)) :=
  ⟨List.Pairwise.nil,
   process_document_hash_unique_two_commits
     ⟨fun _ => "h", fun _ => none, fun _ => [""]⟩ "u" "/w"
     ⟨[], 0, [("/in/a.pdf", [7])]⟩ "/in/a.pdf" List.Pairwise.nil⟩

/-- C9: evaluation at the failing input.  A message with a single PDF
attachment is written to the working directory, but the successor task the
poller enqueues for it is the legacy `upload_to_s3` task — not the ingest
entry point `process_document` that the claim (and the rest of the ingress
surface) names.  The `upload_to_s3` module does not exist in the codebase, so
the claimed hand-off to ingest never happens. -/
theorem fetch_attachments_and_enqueue_not_ingest :
    fetch_attachments_and_enqueue "/workdir"
        [⟨"application", "application/pdf", some "invoice.pdf",
          [37, 80, 68, 70]⟩] =
      (true, [("/workdir/invoice.pdf", [37, 80, 68, 70])],
       [MailTask.uploadToS3 "/workdir/invoice.pdf"]) ∧
    MailTask.processDocumentTask "/workdir/invoice.pdf" ∉
      (fetch_attachments_and_enqueue "/workdir"
        [⟨"application", "application/pdf", some "invoice.pdf",
          [37, 80, 68, 70]⟩]).2.2 := by
  decide

/-- A tick step preserves the per-tick bookkeeping. -/
theorem tickStep_tickOk {ops : List Nat} {t : Tick} {b : Bool} {t' : Tick}
    {b' : Bool} (h : TickStep ops t b t' b') (ht : tickOk t) : tickOk t' := by
  cases h with
  | acquireOk e => simp [tickOk]
  | acquireFail e => exact ⟨by simp, fun _ => ht.1 rfl⟩
  | ioStep op rest e b => simp [tickOk]
  | raiseExc rest e b => simp [tickOk]
  | finishBody e b => simp [tickOk]
  | releaseLock x e b => simp [tickOk]

/-- The expiry-free inductive invariant is preserved by every expiry-free
step. -/
theorem pollStep_pollerInv {ops1 ops2 : List Nat} {c c' : PollerSys}
    (h : PollStep false ops1 ops2 c c') (hc : pollerInv c) : pollerInv c' := by
  obtain ⟨hl, hm, h1, h2⟩ := hc
  cases h with
  | stepLeft t2 ht =>
    have h1' := tickStep_tickOk ht h1
    cases ht <;>
      simp_all [pollerInv, inMailboxBody, tickOk]
  | stepRight t1 ht =>
    have h2' := tickStep_tickOk ht h2
    cases ht <;>
      simp_all [pollerInv, inMailboxBody, tickOk]
  | expireLock t1 t2 hx => exact absurd hx (by simp)

/-- The expiry-free inductive invariant holds in every expiry-free reachable
configuration. -/
theorem pollReachable_pollerInv (ops1 ops2 : List Nat) (c : PollerSys)
    (h : PollReachable false ops1 ops2 c) : pollerInv c := by
  unfold PollReachable at h
  induction h with
  | refl => simp [pollerInv, pollInit, inMailboxBody, tickOk]
  | tail _ hbc ih => exact pollStep_pollerInv hbc ih

/-- The weak inductive invariant is preserved by every step of the full
semantics, the expiry step included. -/
theorem pollStep_pollerInvWeak {expiry : Bool} {ops1 ops2 : List Nat}
    {c c' : PollerSys} (h : PollStep expiry ops1 ops2 c c')
    (hc : pollerInvWeak c) : pollerInvWeak c' := by
  obtain ⟨hl, h1, h2⟩ := hc
  cases h with
  | stepLeft t2 ht =>
    have h1' := tickStep_tickOk ht h1
    cases ht <;>
      simp_all [pollerInvWeak, inMailboxBody, tickOk]
  | stepRight t1 ht =>
    have h2' := tickStep_tickOk ht h2
    cases ht <;>
      simp_all [pollerInvWeak, inMailboxBody, tickOk]
  | expireLock t1 t2 hx =>
    exact ⟨by simp, h1, h2⟩

/-- The weak inductive invariant holds in every reachable configuration of
the full semantics. -/
theorem pollReachable_pollerInvWeak (ops1 ops2 : List Nat) (c : PollerSys)
    (h : PollReachable true ops1 ops2 c) : pollerInvWeak c := by
  unfold PollReachable at h
  induction h with
  | refl => simp [pollerInvWeak, pollInit, inMailboxBody, tickOk]
  | tail _ hbc ih => exact pollStep_pollerInvWeak hbc ih

/-- Counterexample for C3: under the program's full semantics the 300 s lock
expiry can fire while the first tick is still inside its mailbox-processing
body, after which the second tick's `SETNX` succeeds — a concrete reachable
configuration has both ticks past lock acquisition at the same time, so the
program does not guarantee that at most one of two concurrent ticks proceeds
past lock acquisition. -/
theorem pull_all_inboxes_expiry_breaks_mutex :
    PollReachable true [] []
      ⟨true, ⟨TickPhase.running [], []⟩, ⟨TickPhase.running [], []⟩⟩ ∧
    inMailboxBody (PollerSys.mk true ⟨TickPhase.running [], []⟩
      ⟨TickPhase.running [], []⟩).tick1.phase = true ∧
    inMailboxBody (PollerSys.mk true ⟨TickPhase.running [], []⟩
      ⟨TickPhase.running [], []⟩).tick2.phase = true := by
  refine ⟨?_, rfl, rfl⟩
  have s1 : PollStep true [] [] pollInit
      ⟨true, ⟨TickPhase.running [], []⟩, ⟨TickPhase.start, []⟩⟩ :=
    PollStep.stepLeft _ (TickStep.acquireOk [])
  have s2 : PollStep true [] []
      ⟨true, ⟨TickPhase.running [], []⟩, ⟨TickPhase.start, []⟩⟩
      ⟨false, ⟨TickPhase.running [], []⟩, ⟨TickPhase.start, []⟩⟩ :=
    PollStep.expireLock _ _ rfl
  have s3 : PollStep true [] []
      ⟨false, ⟨TickPhase.running [], []⟩, ⟨TickPhase.start, []⟩⟩
      ⟨true, ⟨TickPhase.running [], []⟩, ⟨TickPhase.running [], []⟩⟩ :=
    PollStep.stepRight _ (TickStep.acquireOk [])
  exact Relation.ReflTransGen.tail
    (Relation.ReflTransGen.tail
      (Relation.ReflTransGen.tail Relation.ReflTransGen.refl s1) s2) s3

/-- C3 (amended): mutual exclusion holds in every run in which the 5-minute
lock expiry does not fire during a cycle — there, at most one tick is past
lock acquisition at any time (after a stalled cycle the expiry can void this,
see the counterexample); and in the full semantics, expiry included: a tick
whose `SETNX` observed the lock held skips with no mailbox I/O performed and
returns immediately, and every tick that acquired the lock releases it on
every exit path of its body including the exceptional one — whenever neither
tick is inside its body, the lock key is unset. -/
theorem pull_all_inboxes_mutex (ops1 ops2 : List Nat) (c c' : PollerSys)
    (h : PollReachable true ops1 ops2 c)
    (hne : PollReachable false ops1 ops2 c') :
    ¬(inMailboxBody c'.tick1.phase = true ∧
      inMailboxBody c'.tick2.phase = true) ∧
    (c.tick1.phase = TickPhase.skipped → c.tick1.emitted = []) ∧
    (c.tick2.phase = TickPhase.skipped → c.tick2.emitted = []) ∧
    (inMailboxBody c.tick1.phase = false →
      inMailboxBody c.tick2.phase = false → c.lock = false) := by
  obtain ⟨hl, h1, h2⟩ := pollReachable_pollerInvWeak ops1 ops2 c h
  refine ⟨(pollReachable_pollerInv ops1 ops2 c' hne).2.1, h1.2, h2.2, ?_⟩
  intro hb1 hb2
  rcases hlk : c.lock with _ | _
  · rfl
  · have := hl hlk
    rw [hb1, hb2] at this
    exact absurd this (by simp)

/-- Witness for C3 (amended): the initial configuration is reachable in both
the full and the expiry-free semantics and satisfies the guarantees. -/
theorem pull_all_inboxes_mutex_witness :
    PollReachable true [] [] pollInit ∧
    PollReachable false [] [] pollInit ∧
    (¬(inMailboxBody pollInit.tick1.phase = true ∧
       inMailboxBody pollInit.tick2.phase = true) ∧
     (pollInit.tick1.phase = TickPhase.skipped →
       pollInit.tick1.emitted = []) ∧
     (pollInit.tick2.phase = TickPhase.skipped →
       pollInit.tick2.emitted = []) ∧
     (inMailboxBody pollInit.tick1.phase = false →
       inMailboxBody pollInit.tick2.phase = false → pollInit.lock = false)) :=
  ⟨Relation.ReflTransGen.refl, Relation.ReflTransGen.refl,
   pull_all_inboxes_mutex [] [] pollInit pollInit
     Relation.ReflTransGen.refl Relation.ReflTransGen.refl⟩

end DocProc
